import Mathlib

/-!
Verification of the hammer technology path-resolution layer
(`hammer_tech.py`): the `PathPrefix` abstraction, the resolver
`HammerTechnology.prepend_dir_path`, the install checker
`check_installs`, the tarball extraction cache `extract_tarballs`,
the dispatcher `extract_technology_files`, and the library
copy/extra-prefix accessors (`copy_library`, `_add_extra_prefixes`).

The embedding models Python strings as Lean `String`, POSIX path
operations (`os.path.join`, `str.split`) as executable Lean functions
with the same semantics, Python exceptions as an `Except Err` result,
the settings database (an external collaborator consulted through
`get(key)`) as a partial map `String → Option String`, and the
filesystem as an explicit state record threaded through the
side-effecting operations.  `os.path.sep` is the POSIX separator `/`.
-/

namespace HammerTech

/-- One splitting step of Python `str.split(sep)` for a one-character
separator: walk the character list, cutting at each separator
occurrence (separators are dropped, empty pieces are kept). -/
def splitOnCharAux (c : Char) : List Char → List Char → List String
  | [], acc => [String.mk acc.reverse]
  | x :: xs, acc =>
    if x = c then String.mk acc.reverse :: splitOnCharAux c xs []
    else splitOnCharAux c xs (x :: acc)

/-- Python `s.split(c)` for a one-character separator `c`
(e.g. `"a/b".split("/") = ["a", "b"]`, `"a".split("/") = ["a"]`,
`"a//b".split("/") = ["a", "", "b"]`). -/
def pySplit (c : Char) (s : String) : List String :=
  splitOnCharAux c s.toList []

/-- `os.path.sep` on POSIX. -/
def os_path_sep : Char := '/'

/-- Python `s.startswith("/")` / `s[0] == "/"` on a possibly empty
string: the first character is the separator. -/
def startsWithSep (s : String) : Bool :=
  s.toList.head? = some os_path_sep

/-- Python `s.endswith("/")`: the last character is the separator. -/
def endsWithSep (s : String) : Bool :=
  s.toList.getLast? = some os_path_sep

/-- One step of `posixpath.join`: join the partial result `p` with the
next component `b`.  A component starting with the separator resets
the result; otherwise a separator is inserted unless the partial
result is empty or already ends with one. -/
def osJoinStep (p b : String) : String :=
  if startsWithSep b then b
  else if p = "" ∨ endsWithSep p then p ++ b
  else p ++ "/" ++ b

/-- `os.path.join(base, *rest)`: fold `osJoinStep` over the remaining
components.  (The Python function requires at least one argument; the
zero-argument `TypeError` case is handled at the single call site
that can hit it.) -/
def osPathJoin (base : String) (rest : List String) : String :=
  rest.foldl osJoinStep base

/-- `PathPrefix` (class `PathPrefix` / `_PathPrefixInternal`): a
path-based library prefix mapping an identifier to a base path, e.g.
`mylib` to `/usr/share/mylib`.  The identifier field is called
`prefix` in the source; it is renamed `pfx` here because `prefix` is
reserved syntax in Lean. -/
structure PathPrefix where
  pfx : String
  path : String
  deriving DecidableEq

/-- `PathPrefix.prepend`: `os.path.join(self.path, rest_of_path)`. -/
def PathPrefix.prepend (self : PathPrefix) (rest_of_path : String) : String :=
  osPathJoin self.path [rest_of_path]

/-- The slice of the schema-generated `Library` class read by the
resolver: its `extra_prefixes` property (a list of `PathPrefix`).
The property's getter returns the stored list by value (it is a deep
copy in the source), so for resolution the list value is the whole
observable state.  The aliasing behaviour of the getter and setter is
modelled separately (`LibraryObj` below) for the copy claims. -/
structure Library where
  extra_prefixes : List PathPrefix
  deriving DecidableEq

/-- An entry of `installs` or `tarballs` in the technology JSON:
a record `{path, base_var}`. -/
structure PathsEntry where
  path : String
  base_var : String
  deriving DecidableEq

/-- The slice of `TechJSON` read by this layer: the optional
`installs` and `tarballs` arrays (absent arrays are `None` in
Python). -/
structure TechConfig where
  installs : Option (List PathsEntry)
  tarballs : Option (List PathsEntry)
  deriving DecidableEq

/-- Modelled from the spec: the settings/configuration database is an
external collaborator consulted via `get(key)`; it fails with
`SettingNotFoundError` when the key is absent.  Modelled as a partial
map; `none` means the key is absent and `get_setting` fails. -/
def Settings : Type := String → Option String

/-- The `HammerTechnology` state read by the operations under
verification: technology name, the technology folder `path`, the
assigned `cache_dir`, and the parsed `config`. -/
structure HammerTechnology where
  name : String
  path : String
  cache_dir : String
  config : TechConfig

/-- Failure outcomes of the embedded operations.  `unresolvedPath`
and `ambiguousPath` are the two distinct `ValueError`s raised by
`prepend_dir_path` ("did not match any tarballs or installs" and
"matched more than one tarball or install"); `settingNotFound` is the
settings collaborator's failure for a missing key; `typeError` is the
`TypeError` Python raises for `os.path.join(*[])` with an empty
argument list (and for iterating over `None`); `assertionFailed` is a
failed `assert`. -/
inductive Err where
  | assertionFailed
  | unresolvedPath (path : String)
  | ambiguousPath (path : String)
  | settingNotFound (key : String)
  | typeError
  deriving DecidableEq

deriving instance DecidableEq for Except

/-- External process events recorded against the filesystem state:
`tar -xf archive -C target` and `chmod u+rwX -R target`. -/
inductive FSEvent where
  | extractTar (archive target : String)
  | chmodTree (target : String)
  deriving DecidableEq

/-- Filesystem state: which paths `os.path.isdir` reports as
directories, which paths `os.path.exists` reports as existing, and
the log of external process invocations performed so far. -/
structure FS where
  dirs : List String
  existsPaths : List String
  events : List FSEvent
  deriving DecidableEq

/-- `os.path.isdir`. -/
def FS.isdir (fs : FS) (p : String) : Bool := fs.dirs.contains p

/-- `os.path.exists`. -/
def FS.pathExists (fs : FS) (p : String) : Bool := fs.existsPaths.contains p

/-- `os.makedirs(p, exist_ok=True)`: recursive, idempotent directory
creation; afterwards `p` is a directory and exists. -/
def FS.makedirs (fs : FS) (p : String) : FS :=
  { fs with
    dirs := if fs.dirs.contains p then fs.dirs else p :: fs.dirs
    existsPaths := if fs.existsPaths.contains p then fs.existsPaths else p :: fs.existsPaths }

/-- `HammerTechnology.extracted_tarballs_dir`:
`os.path.join(self.cache_dir, "extracted")`. -/
def extracted_tarballs_dir (tech : HammerTechnology) : String :=
  osPathJoin tech.cache_dir ["extracted"]

/-- The installs whose `path` equals the first path component
(`matching_installs` in `prepend_dir_path`); an absent `installs`
array contributes no candidates. -/
def matching_installs (tech : HammerTechnology) (base_path : String) : List PathsEntry :=
  match tech.config.installs with
  | some installs => installs.filter (fun install => install.path = base_path)
  | none => []

/-- The tarballs whose `path` equals the first path component
(`matching_tarballs` in `prepend_dir_path`). -/
def matching_tarballs (tech : HammerTechnology) (base_path : String) : List PathsEntry :=
  match tech.config.tarballs with
  | some tarballs => tarballs.filter (fun tarball => tarball.path = base_path)
  | none => []

/-- The extra prefixes of the optional library argument whose
`prefix` equals the first path component
(`get_or_else(optional_map(lib, get_extra_prefixes), [])` followed by
the filter in `prepend_dir_path`). -/
def matching_extra_prefixes (lib : Option Library) (base_path : String) : List PathPrefix :=
  ((Option.map (fun l => l.extra_prefixes) lib).getD []).filter (fun p => p.pfx = base_path)

/-- `matches` in `prepend_dir_path`: total number of candidates over
the three sets. -/
def matchCount (tech : HammerTechnology) (lib : Option Library) (base_path : String) : Nat :=
  (matching_installs tech base_path).length + (matching_tarballs tech base_path).length
    + (matching_extra_prefixes lib base_path).length

/-- The `matches == 1` branch of `prepend_dir_path`: resolve through
the unique matching candidate.  The install branch reads `base_var`
(empty means the technology folder itself, otherwise a settings
lookup) and joins with the remaining components; the tarball branch
joins `extracted_tarballs_dir` with the whole original `path`; the
extra-prefix branch applies `matched.prepend` to
`os.path.join(*rest_of_path)`, which raises `TypeError` when
`rest_of_path` is empty.  The `assertionFailed` arms are unreachable
when the total match count is 1. -/
def resolve_single (tech : HammerTechnology) (st : Settings) (lib : Option Library)
    (path base_path : String) (rest_of_path : List String) : Except Err String :=
  if (matching_installs tech base_path).length = 1 then
    match (matching_installs tech base_path).head? with
    | some install =>
      if install.base_var = "" then
        .ok (osPathJoin tech.path rest_of_path)
      else
        match st install.base_var with
        | some base => .ok (osPathJoin base rest_of_path)
        | none => .error (.settingNotFound install.base_var)
    | none => .error .assertionFailed
  else if (matching_tarballs tech base_path).length = 1 then
    .ok (osPathJoin (extracted_tarballs_dir tech) [path])
  else
    match (matching_extra_prefixes lib base_path).head? with
    | some matched =>
      match rest_of_path with
      | [] => .error .typeError
      | r :: rs => .ok (matched.prepend (osPathJoin r rs))
    | none => .error .assertionFailed

/-- `HammerTechnology.prepend_dir_path(path, lib)`.  The filesystem
state is threaded explicitly to record that the method performs no
filesystem operation at all: every exit returns `fs` unchanged (the
body of the source method is pure string manipulation over the
descriptor, the settings lookup, and the library's extra prefixes).
An empty `path` fails the `assert`; a path starting with the
separator is returned as-is; otherwise the first component selects at
most one candidate among installs, tarballs, and the library's extra
prefixes, with zero matches raising the "did not match" `ValueError`
and several matches the "matched more than one" `ValueError`. -/
def prepend_dir_path (tech : HammerTechnology) (st : Settings) (fs : FS)
    (path : String) (lib : Option Library) : Except Err String × FS :=
  if path = "" then (.error .assertionFailed, fs)
  else if startsWithSep path then (.ok path, fs)
  else
    let base_path := (pySplit os_path_sep path).headD ""
    let rest_of_path := (pySplit os_path_sep path).tail
    if matchCount tech lib base_path < 1 then
      (.error (.unresolvedPath path), fs)
    else if 1 < matchCount tech lib base_path then
      (.error (.ambiguousPath path), fs)
    else
      (resolve_single tech st lib path base_path rest_of_path, fs)

/-- The loop body of `HammerTechnology.check_installs` over a list of
installs.  For each install: an empty `base_var` references the
current technology directory and is skipped; otherwise the variable
is looked up in the settings database (a missing key propagates the
settings failure) and the resulting path is required to exist on
disk, logging the missing path and returning `False` immediately
otherwise.  The returned list is the sequence of paths passed to
`logger.error` ("installs ... does not exist"). -/
def check_installs_list (st : Settings) (fs : FS) :
    List PathsEntry → List String → Except Err (Bool × List String)
  | [], log => .ok (true, log)
  | install :: rest, log =>
    if install.base_var = "" then
      check_installs_list st fs rest log
    else
      match st install.base_var with
      | none => .error (.settingNotFound install.base_var)
      | some install_path =>
        if fs.pathExists install_path then
          check_installs_list st fs rest log
        else
          .ok (false, log ++ [install_path])

/-- `HammerTechnology.check_installs`: iterate over
`self.config.installs` (iterating over an absent array is a Python
`TypeError`; the method is only invoked when installs are declared).
Read-only: it takes the filesystem state but never returns a modified
one. -/
def check_installs (tech : HammerTechnology) (st : Settings) (fs : FS) :
    Except Err (Bool × List String) :=
  match tech.config.installs with
  | some installs => check_installs_list st fs installs []
  | none => .error .typeError

/-- The loop body of `HammerTechnology.extract_tarballs` over a list
of tarballs.  For each tarball: compute the target directory under
`extracted_tarballs_dir` and the archive location from the settings
variable (looked up before the directory check, so a missing key
fails even for an already-extracted tarball); if the target is
already a directory, continue with the next tarball; otherwise create
the target directory and run the external `tar` extraction and
recursive `chmod`, recorded as events.  (The `logger.debug` line is
not modelled; external process failure aborts the load and is outside
these claims.) -/
def extract_tarballs_list (tech : HammerTechnology) (st : Settings) :
    List PathsEntry → FS → Except Err FS
  | [], fs => .ok fs
  | tarball :: rest, fs =>
    let target_path := osPathJoin (extracted_tarballs_dir tech) [tarball.path]
    match st tarball.base_var with
    | none => .error (.settingNotFound tarball.base_var)
    | some base =>
      let tarball_path := osPathJoin base [tarball.path]
      if fs.isdir target_path then
        extract_tarballs_list tech st rest fs
      else
        let fs1 := (fs.makedirs target_path)
        let fs2 := { fs1 with
          events := fs1.events ++ [.extractTar tarball_path target_path, .chmodTree target_path] }
        extract_tarballs_list tech st rest fs2

/-- `HammerTechnology.extract_tarballs`: iterate over
`self.config.tarballs` (iterating over an absent array is a Python
`TypeError`; the method is only invoked when tarballs are
declared). -/
def extract_tarballs (tech : HammerTechnology) (st : Settings) (fs : FS) :
    Except Err FS :=
  match tech.config.tarballs with
  | some tarballs => extract_tarballs_list tech st tarballs fs
  | none => .error .typeError

/-- The three possible outcomes of
`HammerTechnology.extract_technology_files`, each carrying the result
of the one strategy that ran: the install check (result ignored by
the caller in the source), the tarball extraction, or the
"Technology specified neither tarballs or installs" error log. -/
inductive TechAction where
  | ranCheckInstalls (result : Except Err (Bool × List String))
  | ranExtractTarballs (result : Except Err FS)
  | loggedError
  deriving DecidableEq

/-- `HammerTechnology.extract_technology_files`: if `installs` is not
`None` run `check_installs` and return; else if `tarballs` is not
`None` run `extract_tarballs` and return; else log an error. -/
def extract_technology_files (tech : HammerTechnology) (st : Settings) (fs : FS) :
    TechAction :=
  match tech.config.installs with
  | some _ => .ranCheckInstalls (check_installs tech st fs)
  | none =>
    match tech.config.tarballs with
    | some _ => .ranExtractTarballs (extract_tarballs tech st fs)
    | none => .loggedError

/-!
Heap model for the `Library` object claims.

Python lists are mutable objects shared by reference, and the point
of the `extra_prefixes` getter/setter installed by
`_add_extra_prefixes` is precisely when list objects are shared
versus copied.  To make that observable, list objects live in an
explicit heap of references: `Heap.store r` is the list currently
held by reference `r`, and `Heap.next` is the next fresh reference.
-/

/-- A heap of Python list objects holding `PathPrefix` elements:
references below `next` are allocated. -/
structure Heap where
  next : Nat
  store : Nat → List PathPrefix

/-- Allocate a fresh list object with the given contents. -/
def Heap.alloc (h : Heap) (v : List PathPrefix) : Nat × Heap :=
  (h.next, { next := h.next + 1,
             store := fun r => if r = h.next then v else h.store r })

/-- Mutate an existing list object in place. -/
def Heap.write (h : Heap) (r : Nat) (v : List PathPrefix) : Heap :=
  { h with store := fun x => if x = r then v else h.store x }

/-- A reference is valid when it was allocated. -/
def Heap.valid (h : Heap) (r : Nat) : Prop := r < h.next

/-- Modelled from the spec: `deeplist` (from `hammer_utils`, not
shown in the source under verification) performs a deep copy of a
list — per the design notes, the extra-prefix accessors have
"deep-copy semantics".  A deep copy of a list of immutable
`PathPrefix` records is a fresh list object with the same
contents. -/
def deeplist (h : Heap) (r : Nat) : Nat × Heap :=
  h.alloc (h.store r)

/-- The `Library` object as monkey-patched by `_add_extra_prefixes`:
its schema-backed properties (an opaque JSON record of key/value
pairs validated against the schema) plus the plain instance attribute
`__donttouch_extra_prefixes`, which is absent (`none`) until the
`extra_prefixes` setter first runs and afterwards refers to the list
object stored by the setter.  Being a plain underscore-prefixed
attribute, it is invisible to the schema machinery (`serialize`,
`from_json`). -/
structure LibraryObj where
  fields : List (String × String)
  extraRef : Option Nat

/-- The list of extra prefixes a library actually holds: the contents
of its internal list object, or `[]` when the attribute was never
set (the getter's `getattr(self, "__donttouch_extra_prefixes", [])`
default). -/
def internalPrefixes (h : Heap) (lib : LibraryObj) : List PathPrefix :=
  match lib.extraRef with
  | some r => h.store r
  | none => []

/-- The `extra_prefixes` getter installed by `_add_extra_prefixes`:
fetch the internal list (defaulting to a fresh empty list) and return
`deeplist` of it — a fresh list object with the same contents. -/
def get_extra_prefixes (h : Heap) (lib : LibraryObj) : Nat × Heap :=
  match lib.extraRef with
  | some r => deeplist h r
  | none => h.alloc []

/-- The `extra_prefixes` setter installed by `_add_extra_prefixes`
(also reached through the wrapped `__setattr__`): store `deeplist` of
the supplied list object as the new internal list. -/
def set_extra_prefixes (h : Heap) (lib : LibraryObj) (r : Nat) : LibraryObj × Heap :=
  let copied := deeplist h r
  ({ lib with extraRef := some copied.1 }, copied.2)

/-- `Library.serialize()`: the schema machinery serializes the
schema-backed properties only; the plain underscore-prefixed instance
attribute holding the extra prefixes is not part of the schema and is
not serialized. -/
def serialize (lib : LibraryObj) : List (String × String) :=
  lib.fields

/-- `Library.from_json` on a serialized record: the schema-backed
properties are restored; no `extra_prefixes` setter runs, so the new
object's internal attribute is absent. -/
def library_from_json (j : List (String × String)) : LibraryObj :=
  { fields := j, extraRef := none }

/-- `copy_library(lib)`: `Library.from_json(lib.serialize())`. -/
def copy_library (lib : LibraryObj) : LibraryObj :=
  library_from_json (serialize lib)

/-- An install passes `check_installs`: its `base_var` is empty, or
the settings lookup succeeds and the resulting path exists on disk
(specification predicate used to state the `check_installs`
claims). -/
def installPasses (st : Settings) (fs : FS) (i : PathsEntry) : Bool :=
  if i.base_var = "" then true
  else
    match st i.base_var with
    | some p => fs.pathExists p
    | none => false

/-- The internal extra-prefix reference of a library object is an
allocated heap reference (or absent). -/
def LibraryObj.validIn (lib : LibraryObj) (h : Heap) : Bool :=
  match lib.extraRef with
  | some r => r < h.next
  | none => true

/-! Concrete fixtures for the closed witness and counterexample
theorems. -/

/-- An empty filesystem: nothing exists, nothing has run. -/
def fs0 : FS := { dirs := [], existsPaths := [], events := [] }

/-- A settings database holding `VENDOR_HOME` and `ARCHIVE_DIR`. -/
def settings0 : Settings := fun k =>
  if k = "VENDOR_HOME" then some "/opt/vendor"
  else if k = "ARCHIVE_DIR" then some "/archives"
  else none

/-- A technology declaring one install `{path: "libvendor", base_var:
"VENDOR_HOME"}` and no tarballs. -/
def techVendor : HammerTechnology :=
  { name := "vendortech", path := "/tech/vendortech", cache_dir := "/cache",
    config := { installs := some [{ path := "libvendor", base_var := "VENDOR_HOME" }],
                tarballs := none } }

/-- A technology declaring one tarball `{path: "stdcell", base_var:
"ARCHIVE_DIR"}`, cache dir `/cache`, and no installs. -/
def techStdcell : HammerTechnology :=
  { name := "stdtech", path := "/tech/stdtech", cache_dir := "/cache",
    config := { installs := none,
                tarballs := some [{ path := "stdcell", base_var := "ARCHIVE_DIR" }] } }

/-- A technology with neither installs nor tarballs declared. -/
def techEmptyCfg : HammerTechnology :=
  { name := "emptytech", path := "/tech/emptytech", cache_dir := "/cache",
    config := { installs := none, tarballs := none } }

/-- A technology declaring both installs (an empty list) and
tarballs. -/
def techBoth : HammerTechnology :=
  { name := "bothtech", path := "/tech/bothtech", cache_dir := "/cache",
    config := { installs := some [],
                tarballs := some [{ path := "stdcell", base_var := "ARCHIVE_DIR" }] } }

/-- A technology whose install list has a passing install (empty
`base_var`), then one whose resolved path `/opt/vendor` does not
exist on the empty filesystem, then one whose settings key is
missing. -/
def techChecks : HammerTechnology :=
  { name := "checktech", path := "/tech/checktech", cache_dir := "/cache",
    config := { installs := some [{ path := "own", base_var := "" },
                                  { path := "libvendor", base_var := "VENDOR_HOME" },
                                  { path := "zz", base_var := "MISSING_KEY" }],
                tarballs := none } }

/-- A library carrying the extra prefix `mylib -> /usr/share/mylib`. -/
def libMylib : Library :=
  { extra_prefixes := [{ pfx := "mylib", path := "/usr/share/mylib" }] }

/-- A one-object heap: reference 0 holds the `mylib` prefix list. -/
def heap9 : Heap :=
  { next := 1, store := fun r => if r = 0 then [{ pfx := "mylib", path := "/usr/share/mylib" }] else [] }

/-- A library object whose extra prefixes were attached after
parsing: its internal attribute refers to heap reference 0. -/
def libObj9 : LibraryObj :=
  { fields := [("name", "mylib")], extraRef := some 0 }

/-! Helper lemmas. -/

/-- `resolve_single` never produces the zero-match or several-match
`ValueError`s: every branch returns a path or one of the other
failures. -/
theorem resolve_single_no_match_error (tech : HammerTechnology) (st : Settings)
    (lib : Option Library) (path base_path : String) (rest_of_path : List String)
    (q : String) :
    resolve_single tech st lib path base_path rest_of_path ≠ .error (.unresolvedPath q)
      ∧ resolve_single tech st lib path base_path rest_of_path ≠ .error (.ambiguousPath q) := by
  unfold resolve_single
  constructor <;>
  · intro hcontra
    repeat' split at hcontra
    all_goals simp_all

/-- A nonempty string does not satisfy the empty-string test. -/
theorem startsWithSep_ne_empty (path : String) (h : startsWithSep path = true) :
    path ≠ "" := by
  intro hrfl
  subst hrfl
  simp [startsWithSep, os_path_sep] at h

/-- C5: every input path beginning with the path separator is
returned unchanged by `prepend_dir_path`, whatever the descriptor's
installs and tarballs and the library's extra prefixes, and the
filesystem state is untouched; only nonemptiness (implied by the
leading separator) is required. -/
theorem prepend_dir_path_absolute (tech : HammerTechnology) (st : Settings) (fs : FS)
    (path : String) (lib : Option Library) (habs : startsWithSep path = true) :
    prepend_dir_path tech st fs path lib = (.ok path, fs) := by
  unfold prepend_dir_path
  rw [if_neg (startsWithSep_ne_empty path habs), if_pos habs]

/-- Closed instance of `prepend_dir_path_absolute`: the absolute path
`/abs/x` is returned unchanged against a descriptor that declares an
install, a tarball, and an extra prefix. -/
theorem prepend_dir_path_absolute_witness :
    prepend_dir_path techVendor settings0 fs0 "/abs/x" (some libMylib) = (.ok "/abs/x", fs0) :=
  prepend_dir_path_absolute techVendor settings0 fs0 "/abs/x" (some libMylib) (by decide)

/-- C1: for a nonempty relative path, `prepend_dir_path` fails with
the unresolved-path `ValueError` exactly when the first path
component matches zero candidates over the descriptor's installs, the
descriptor's tarballs, and the library's extra prefixes; fails with
the ambiguous-path `ValueError` exactly when the total number of
matching candidates exceeds one; and proceeds past the match check
(producing neither of those two errors) exactly when there is one
match. -/
theorem prepend_dir_path_match_trichotomy (tech : HammerTechnology) (st : Settings)
    (fs : FS) (path : String) (lib : Option Library)
    (hne : path ≠ "") (hrel : startsWithSep path = false) :
    ((prepend_dir_path tech st fs path lib).1 = .error (.unresolvedPath path)
      ↔ matchCount tech lib ((pySplit os_path_sep path).headD "") = 0)
    ∧ ((prepend_dir_path tech st fs path lib).1 = .error (.ambiguousPath path)
      ↔ 1 < matchCount tech lib ((pySplit os_path_sep path).headD ""))
    ∧ (matchCount tech lib ((pySplit os_path_sep path).headD "") = 1
      ↔ (prepend_dir_path tech st fs path lib).1 ≠ .error (.unresolvedPath path)
        ∧ (prepend_dir_path tech st fs path lib).1 ≠ .error (.ambiguousPath path)) := by
  have hnot := resolve_single_no_match_error tech st lib path
    ((pySplit os_path_sep path).headD "") ((pySplit os_path_sep path).tail) path
  unfold prepend_dir_path
  rw [if_neg hne, if_neg (by simp [hrel])]
  rcases hm : matchCount tech lib ((pySplit os_path_sep path).headD "") with _ | _ | n <;>
    simp_all

/-- Closed instance of `prepend_dir_path_match_trichotomy`: against
`techVendor`, the path `nomatch/x` has zero candidates and resolution
reports the unresolved-path failure. -/
theorem prepend_dir_path_match_trichotomy_witness :
    matchCount techVendor none ((pySplit os_path_sep "nomatch/x").headD "") = 0
    ∧ (prepend_dir_path techVendor settings0 fs0 "nomatch/x" none).1
        = .error (.unresolvedPath "nomatch/x") :=
  ⟨by decide,
   (prepend_dir_path_match_trichotomy techVendor settings0 fs0 "nomatch/x" none
      (by decide) (by decide)).1.mpr (by decide)⟩

/-- C2: when the first component of a relative path matches exactly
one install and nothing else, resolution joins the remaining
components onto the technology's own folder if the install's
`base_var` is empty, onto the settings value of `base_var` when the
lookup succeeds, and fails with the settings-lookup failure when the
key is absent. -/
theorem prepend_dir_path_install_spec (tech : HammerTechnology) (st : Settings)
    (fs : FS) (path : String) (lib : Option Library) (install : PathsEntry)
    (hne : path ≠ "") (hrel : startsWithSep path = false)
    (hinst : matching_installs tech ((pySplit os_path_sep path).headD "") = [install])
    (htar : matching_tarballs tech ((pySplit os_path_sep path).headD "") = [])
    (hpre : matching_extra_prefixes lib ((pySplit os_path_sep path).headD "") = []) :
    (install.base_var = "" →
      (prepend_dir_path tech st fs path lib).1
        = .ok (osPathJoin tech.path (pySplit os_path_sep path).tail))
    ∧ (∀ v, install.base_var ≠ "" → st install.base_var = some v →
      (prepend_dir_path tech st fs path lib).1
        = .ok (osPathJoin v (pySplit os_path_sep path).tail))
    ∧ (install.base_var ≠ "" → st install.base_var = none →
      (prepend_dir_path tech st fs path lib).1
        = .error (.settingNotFound install.base_var)) := by
  have hm : matchCount tech lib ((pySplit os_path_sep path).headD "") = 1 := by
    unfold matchCount
    rw [hinst, htar, hpre]
    rfl
  unfold prepend_dir_path
  rw [if_neg hne, if_neg (by simp [hrel])]
  simp only [hm]
  rw [if_neg (by omega), if_neg (by omega)]
  unfold resolve_single
  rw [hinst]
  refine ⟨fun hbase => by simp [hbase],
    fun v hbase hlook => by simp [hbase, hlook],
    fun hbase hlook => by simp [hbase, hlook]⟩

/-- Closed instance of `prepend_dir_path_install_spec`: the spec
scenario — install `{path: "libvendor", base_var: "VENDOR_HOME"}`
with setting `VENDOR_HOME = "/opt/vendor"` resolves
`libvendor/lib/foo.lib` to `/opt/vendor/lib/foo.lib`. -/
theorem prepend_dir_path_install_spec_witness :
    (prepend_dir_path techVendor settings0 fs0 "libvendor/lib/foo.lib" none).1
      = .ok "/opt/vendor/lib/foo.lib" := by
  have h := (prepend_dir_path_install_spec techVendor settings0 fs0 "libvendor/lib/foo.lib"
    none { path := "libvendor", base_var := "VENDOR_HOME" }
    (by decide) (by decide) (by decide) (by decide) (by decide)).2.1
    "/opt/vendor" (by decide) (by decide)
  rw [h]
  decide

/-- C3 (amended): when the first component of a relative path matches
exactly one declared tarball and nothing else, resolution returns
`join(cacheDir, "extracted", relativePath)` — the full original
relative path is preserved, not just the remainder — and the
filesystem state is returned unchanged: `prepend_dir_path` performs
no extraction itself (extraction belongs to `extract_tarballs`). -/
theorem prepend_dir_path_tarball_spec (tech : HammerTechnology) (st : Settings)
    (fs : FS) (path : String) (lib : Option Library) (tarball : PathsEntry)
    (hne : path ≠ "") (hrel : startsWithSep path = false)
    (hinst : matching_installs tech ((pySplit os_path_sep path).headD "") = [])
    (htar : matching_tarballs tech ((pySplit os_path_sep path).headD "") = [tarball])
    (hpre : matching_extra_prefixes lib ((pySplit os_path_sep path).headD "") = []) :
    prepend_dir_path tech st fs path lib
      = (.ok (osPathJoin tech.cache_dir ["extracted", path]), fs) := by
  have hm : matchCount tech lib ((pySplit os_path_sep path).headD "") = 1 := by
    unfold matchCount
    rw [hinst, htar, hpre]
    rfl
  unfold prepend_dir_path
  rw [if_neg hne, if_neg (by simp [hrel])]
  simp only [hm]
  rw [if_neg (by omega), if_neg (by omega)]
  unfold resolve_single
  rw [hinst, htar]
  simp [osPathJoin, extracted_tarballs_dir]

/-- Counterexample to C3 as stated: at the spec's own scenario
(tarball `{path: "stdcell", base_var: "ARCHIVE_DIR"}`, cache dir
`/cache`, nothing extracted yet), the first resolution of
`stdcell/cells.lib` returns `/cache/extracted/stdcell/cells.lib` with
the filesystem state it was given: afterwards
`/cache/extracted/stdcell` is still not a directory and no extraction
process ever ran, so resolution did not trigger extraction and does
not guarantee the tarball is extracted before returning. -/
theorem prepend_dir_path_tarball_counterexample :
    (prepend_dir_path techStdcell settings0 fs0 "stdcell/cells.lib" none).1
      = .ok "/cache/extracted/stdcell/cells.lib"
    ∧ (prepend_dir_path techStdcell settings0 fs0 "stdcell/cells.lib" none).2 = fs0
    ∧ ((prepend_dir_path techStdcell settings0 fs0 "stdcell/cells.lib" none).2).isdir
        "/cache/extracted/stdcell" = false
    ∧ ((prepend_dir_path techStdcell settings0 fs0 "stdcell/cells.lib" none).2).events
        = [] := by
  decide

/-- Closed instance of `prepend_dir_path_tarball_spec`: resolving
`stdcell/cells.lib` against `techStdcell` returns
`/cache/extracted/stdcell/cells.lib` and leaves the filesystem
untouched. -/
theorem prepend_dir_path_tarball_spec_witness :
    prepend_dir_path techStdcell settings0 fs0 "stdcell/cells.lib" none
      = (.ok "/cache/extracted/stdcell/cells.lib", fs0) := by
  have h := prepend_dir_path_tarball_spec techStdcell settings0 fs0 "stdcell/cells.lib"
    none { path := "stdcell", base_var := "ARCHIVE_DIR" }
    (by decide) (by decide) (by decide) (by decide) (by decide)
  rw [h]
  decide

/-- C4 (amended): when the first component of a relative path matches
exactly one extra prefix of the given library and nothing else, and
the remainder after the first component is nonempty, resolution
returns `matched.prepend` applied to the join of the remainder.  (The
remainder must be nonempty: a single-segment path reaches
`os.path.join` with an empty argument list, which raises `TypeError`
rather than returning a prepended path.) -/
theorem prepend_dir_path_extra_prefix_spec (tech : HammerTechnology) (st : Settings)
    (fs : FS) (path : String) (lib : Option Library) (matched : PathPrefix)
    (r : String) (rs : List String)
    (hne : path ≠ "") (hrel : startsWithSep path = false)
    (hinst : matching_installs tech ((pySplit os_path_sep path).headD "") = [])
    (htar : matching_tarballs tech ((pySplit os_path_sep path).headD "") = [])
    (hpre : matching_extra_prefixes lib ((pySplit os_path_sep path).headD "") = [matched])
    (hrest : (pySplit os_path_sep path).tail = r :: rs) :
    (prepend_dir_path tech st fs path lib).1
      = .ok (matched.prepend (osPathJoin r rs)) := by
  have hm : matchCount tech lib ((pySplit os_path_sep path).headD "") = 1 := by
    unfold matchCount
    rw [hinst, htar, hpre]
    rfl
  unfold prepend_dir_path
  rw [if_neg hne, if_neg (by simp [hrel])]
  simp only [hm]
  rw [if_neg (by omega), if_neg (by omega)]
  unfold resolve_single
  rw [hinst, htar, hpre, hrest]
  simp

/-- Counterexample to C4 as stated: the single-segment path `mylib`
matches exactly one extra prefix of the library (`mylib ->
/usr/share/mylib`) with an empty remainder, yet resolution does not
return `matched.prepend` of the joined remainder — it raises the
`TypeError` coming from `os.path.join` applied to an empty argument
list. -/
theorem prepend_dir_path_extra_prefix_counterexample :
    matching_extra_prefixes (some libMylib) "mylib"
      = [{ pfx := "mylib", path := "/usr/share/mylib" }]
    ∧ (prepend_dir_path techEmptyCfg settings0 fs0 "mylib" (some libMylib)).1
        = .error .typeError := by
  decide

/-- Closed instance of `prepend_dir_path_extra_prefix_spec`: the spec
scenario — a library with extra prefix `mylib -> /usr/share/mylib`
resolves `mylib/rtl/top.v` to `/usr/share/mylib/rtl/top.v`. -/
theorem prepend_dir_path_extra_prefix_spec_witness :
    (prepend_dir_path techEmptyCfg settings0 fs0 "mylib/rtl/top.v" (some libMylib)).1
      = .ok "/usr/share/mylib/rtl/top.v" := by
  have h := prepend_dir_path_extra_prefix_spec techEmptyCfg settings0 fs0 "mylib/rtl/top.v"
    (some libMylib) { pfx := "mylib", path := "/usr/share/mylib" } "rtl" ["top.v"]
    (by decide) (by decide) (by decide) (by decide) (by decide) (by decide)
  rw [h]
  decide

/-- `makedirs` preserves existing directories. -/
theorem makedirs_isdir_mono (fs : FS) (q p : String) (hp : fs.isdir p = true) :
    (fs.makedirs q).isdir p = true := by
  unfold FS.isdir FS.makedirs at *
  dsimp only at *
  split
  · exact hp
  · simp only [List.contains_cons, hp, Bool.or_true]

/-- After `makedirs q`, the path `q` is a directory. -/
theorem makedirs_isdir_self (fs : FS) (q : String) :
    (fs.makedirs q).isdir q = true := by
  unfold FS.isdir FS.makedirs
  dsimp only
  split
  · assumption
  · simp [List.contains_cons]

/-- A successful `extract_tarballs` pass never removes directories. -/
theorem extract_tarballs_list_isdir_mono (tech : HammerTechnology) (st : Settings) :
    ∀ (ts : List PathsEntry) (fs fs' : FS) (p : String),
      extract_tarballs_list tech st ts fs = .ok fs' →
      fs.isdir p = true → fs'.isdir p = true := by
  intro ts
  induction ts with
  | nil =>
    intro fs fs' p h hp
    unfold extract_tarballs_list at h
    cases h
    exact hp
  | cons tarball rest ih =>
    intro fs fs' p h hp
    unfold extract_tarballs_list at h
    cases hst : st tarball.base_var with
    | none => rw [hst] at h; cases h
    | some base =>
      rw [hst] at h
      dsimp only at h
      by_cases hdir : fs.isdir (osPathJoin (extracted_tarballs_dir tech) [tarball.path]) = true
      · rw [if_pos hdir] at h
        exact ih fs fs' p h hp
      · rw [if_neg hdir] at h
        exact ih _ fs' p h (makedirs_isdir_mono fs _ p hp)

/-- A successful `extract_tarballs` pass leaves every processed
tarball's target directory in place. -/
theorem extract_tarballs_list_idem (tech : HammerTechnology) (st : Settings) :
    ∀ (ts : List PathsEntry) (fs fs' : FS),
      extract_tarballs_list tech st ts fs = .ok fs' →
      extract_tarballs_list tech st ts fs' = .ok fs' := by
  intro ts
  induction ts with
  | nil =>
    intro fs fs' h
    unfold extract_tarballs_list at h ⊢
    cases h
    rfl
  | cons tarball rest ih =>
    intro fs fs' h
    unfold extract_tarballs_list at h ⊢
    cases hst : st tarball.base_var with
    | none => rw [hst] at h; cases h
    | some base =>
      rw [hst] at h
      dsimp only at h ⊢
      by_cases hdir : fs.isdir (osPathJoin (extracted_tarballs_dir tech) [tarball.path]) = true
      · rw [if_pos hdir] at h
        rw [if_pos (extract_tarballs_list_isdir_mono tech st rest fs fs' _ h hdir)]
        exact ih fs fs' h
      · rw [if_neg hdir] at h
        rw [if_pos (extract_tarballs_list_isdir_mono tech st rest _ fs' _ h
          (makedirs_isdir_self fs _))]
        exact ih _ fs' h

/-- C6: tarball extraction is idempotent.  If a full `extract_tarballs`
run succeeded, running it again on the resulting filesystem is a
no-op returning the same state (so extraction runs at most once per
tarball); and for any single declared tarball whose target directory
`<cacheDir>/extracted/<tarball.path>` already is a directory, the
pass over that tarball performs no extraction and no mutation at all
— directory existence is the sole check. -/
theorem extract_tarballs_idempotent (tech : HammerTechnology) (st : Settings)
    (fs fs' : FS) (hok : extract_tarballs tech st fs = .ok fs') :
    extract_tarballs tech st fs' = .ok fs'
    ∧ ∀ (tarball : PathsEntry) (g : FS) (v : String),
        st tarball.base_var = some v →
        g.isdir (osPathJoin (extracted_tarballs_dir tech) [tarball.path]) = true →
        extract_tarballs_list tech st [tarball] g = .ok g := by
  constructor
  · cases hcfg : tech.config.tarballs with
    | none =>
      unfold extract_tarballs at hok
      rw [hcfg] at hok
      simp at hok
    | some ts =>
      unfold extract_tarballs at hok ⊢
      rw [hcfg] at hok ⊢
      exact extract_tarballs_list_idem tech st ts fs fs' hok
  · intro tarball g v hst hdir
    unfold extract_tarballs_list
    rw [hst]
    dsimp only
    rw [if_pos hdir]
    rfl

/-- Closed instance of `extract_tarballs_idempotent`: after the first
run over `techStdcell` (which created `/cache/extracted/stdcell` and
ran `tar` and `chmod` once), a second run returns the same state
unchanged. -/
theorem extract_tarballs_idempotent_witness :
    extract_tarballs techStdcell settings0
      { dirs := ["/cache/extracted/stdcell"],
        existsPaths := ["/cache/extracted/stdcell"],
        events := [.extractTar "/archives/stdcell" "/cache/extracted/stdcell",
                   .chmodTree "/cache/extracted/stdcell"] }
      = .ok { dirs := ["/cache/extracted/stdcell"],
              existsPaths := ["/cache/extracted/stdcell"],
              events := [.extractTar "/archives/stdcell" "/cache/extracted/stdcell",
                         .chmodTree "/cache/extracted/stdcell"] } :=
  (extract_tarballs_idempotent techStdcell settings0 fs0
    { dirs := ["/cache/extracted/stdcell"],
      existsPaths := ["/cache/extracted/stdcell"],
      events := [.extractTar "/archives/stdcell" "/cache/extracted/stdcell",
                 .chmodTree "/cache/extracted/stdcell"] }
    (by decide)).1

/-- Installs that pass are skipped without output. -/
theorem check_installs_list_all_pass (st : Settings) (fs : FS) :
    ∀ (installs : List PathsEntry) (log : List String),
      (∀ i ∈ installs, installPasses st fs i = true) →
      check_installs_list st fs installs log = .ok (true, log) := by
  intro installs
  induction installs with
  | nil => intro log _; rfl
  | cons install rest ih =>
    intro log hall
    have hinst := hall install (List.mem_cons_self install rest)
    have hrest : ∀ i ∈ rest, installPasses st fs i = true :=
      fun i hi => hall i (List.mem_cons_of_mem install hi)
    unfold check_installs_list
    by_cases hbv : install.base_var = ""
    · rw [if_pos hbv]
      exact ih log hrest
    · rw [if_neg hbv]
      unfold installPasses at hinst
      rw [if_neg hbv] at hinst
      cases hst : st install.base_var with
      | none => rw [hst] at hinst; cases hinst
      | some p =>
        rw [hst] at hinst
        dsimp only at hinst
        dsimp only
        rw [if_pos hinst]
        exact ih log hrest

/-- The first install whose resolved path is missing stops the scan:
the result is `False` with the missing path logged, whatever installs
follow. -/
theorem check_installs_list_first_missing (st : Settings) (fs : FS)
    (bad : PathsEntry) (badPath : String)
    (hbv : bad.base_var ≠ "") (hlookup : st bad.base_var = some badPath)
    (hmiss : fs.pathExists badPath = false) :
    ∀ (pre suffix : List PathsEntry) (log : List String),
      (∀ i ∈ pre, installPasses st fs i = true) →
      check_installs_list st fs (pre ++ bad :: suffix) log = .ok (false, log ++ [badPath]) := by
  intro pre
  induction pre with
  | nil =>
    intro suffix log _
    rw [List.nil_append]
    unfold check_installs_list
    rw [if_neg hbv, hlookup]
    dsimp only
    rw [if_neg (by simp [hmiss])]
  | cons install rest ih =>
    intro suffix log hall
    have hinst := hall install (List.mem_cons_self install rest)
    have hrest : ∀ i ∈ rest, installPasses st fs i = true :=
      fun i hi => hall i (List.mem_cons_of_mem install hi)
    rw [List.cons_append]
    unfold check_installs_list
    by_cases hibv : install.base_var = ""
    · rw [if_pos hibv]
      exact ih suffix log hrest
    · rw [if_neg hibv]
      unfold installPasses at hinst
      rw [if_neg hibv] at hinst
      cases hst : st install.base_var with
      | none => rw [hst] at hinst; cases hinst
      | some p =>
        rw [hst] at hinst
        dsimp only at hinst
        dsimp only
        rw [if_pos hinst]
        exact ih suffix log hrest

/-- C7: `check_installs` short-circuits at the first install whose
non-empty `base_var` resolves (through the settings lookup) to a path
missing on disk, returning `False` with exactly that path logged and
never examining the installs after it (any suffix — even one whose
settings key is missing — gives the same result); installs with an
empty `base_var` always count as present; and when every install
passes, it returns `True` with nothing logged.  The embedding is
read-only by construction: no filesystem state is produced. -/
theorem check_installs_spec (tech : HammerTechnology) (st : Settings) (fs : FS)
    (pre : List PathsEntry) (bad : PathsEntry) (badPath : String)
    (hpre : ∀ i ∈ pre, installPasses st fs i = true)
    (hbv : bad.base_var ≠ "") (hlookup : st bad.base_var = some badPath)
    (hmiss : fs.pathExists badPath = false) :
    (∀ suffix : List PathsEntry, tech.config.installs = some (pre ++ bad :: suffix) →
        check_installs tech st fs = .ok (false, [badPath]))
    ∧ (∀ installs : List PathsEntry, (∀ i ∈ installs, installPasses st fs i = true) →
        tech.config.installs = some installs →
        check_installs tech st fs = .ok (true, [])) := by
  constructor
  · intro suffix hcfg
    unfold check_installs
    rw [hcfg]
    simpa using check_installs_list_first_missing st fs bad badPath hbv hlookup hmiss
      pre suffix [] hpre
  · intro installs hall hcfg
    unfold check_installs
    rw [hcfg]
    exact check_installs_list_all_pass st fs installs [] hall

/-- Closed instance of `check_installs_spec`: `techChecks` has a
passing install (empty `base_var`), then `libvendor` resolving to the
missing `/opt/vendor`, then an install whose settings key is absent;
the scan stops at `libvendor`, logging `/opt/vendor` and returning
`False` without touching the third install (whose lookup would have
raised). -/
theorem check_installs_spec_witness :
    check_installs techChecks settings0 fs0 = .ok (false, ["/opt/vendor"]) :=
  (check_installs_spec techChecks settings0 fs0 [{ path := "own", base_var := "" }]
    { path := "libvendor", base_var := "VENDOR_HOME" } "/opt/vendor"
    (by decide) (by decide) (by decide) (by decide)).1
    [{ path := "zz", base_var := "MISSING_KEY" }] (by decide)

/-- C8: `extract_technology_files` runs the install check whenever
installs are declared (whatever the tarballs field holds, so installs
take precedence), runs tarball extraction when installs are absent
and tarballs are declared, and only logs an error when neither is
declared; by construction exactly one of the three outcomes
happens. -/
theorem extract_technology_files_dispatch (tech : HammerTechnology) (st : Settings)
    (fs : FS) :
    (∀ installs, tech.config.installs = some installs →
        extract_technology_files tech st fs
          = .ranCheckInstalls (check_installs tech st fs))
    ∧ (∀ tarballs, tech.config.installs = none → tech.config.tarballs = some tarballs →
        extract_technology_files tech st fs
          = .ranExtractTarballs (extract_tarballs tech st fs))
    ∧ (tech.config.installs = none → tech.config.tarballs = none →
        extract_technology_files tech st fs = .loggedError) := by
  refine ⟨fun installs hi => ?_, fun tarballs hi ht => ?_, fun hi ht => ?_⟩
  · unfold extract_technology_files
    rw [hi]
  · unfold extract_technology_files
    rw [hi, ht]
  · unfold extract_technology_files
    rw [hi, ht]

/-- Closed instance of `extract_technology_files_dispatch`:
`techBoth` declares both installs and tarballs, and the install check
runs (succeeding trivially) while extraction does not. -/
theorem extract_technology_files_dispatch_witness :
    techBoth.config.tarballs = some [{ path := "stdcell", base_var := "ARCHIVE_DIR" }]
    ∧ extract_technology_files techBoth settings0 fs0
        = .ranCheckInstalls (.ok (true, [])) := by
  refine ⟨by decide, ?_⟩
  have h := (extract_technology_files_dispatch techBoth settings0 fs0).1 [] (by decide)
  rw [h]
  decide

/-- A valid internal reference is below the heap's allocation
frontier. -/
theorem validIn_lt (h : Heap) (lib : LibraryObj) (r : Nat)
    (hvalid : lib.validIn h = true) (hr : lib.extraRef = some r) : r < h.next := by
  unfold LibraryObj.validIn at hvalid
  rw [hr] at hvalid
  simpa using hvalid

/-- Writing to a reference distinct from a library's internal one
leaves the prefixes it holds unchanged. -/
theorem internalPrefixes_write_ne (h : Heap) (lib : LibraryObj) (q : Nat)
    (v : List PathPrefix) (hq : ∀ r, lib.extraRef = some r → r ≠ q) :
    internalPrefixes (h.write q v) lib = internalPrefixes h lib := by
  unfold internalPrefixes Heap.write
  cases hr : lib.extraRef with
  | none => rfl
  | some r =>
    dsimp only
    rw [if_neg (hq r hr)]

/-- Allocating a fresh list object leaves every valid library's
prefixes unchanged. -/
theorem internalPrefixes_alloc (h : Heap) (lib : LibraryObj) (v : List PathPrefix)
    (hvalid : lib.validIn h = true) :
    internalPrefixes (h.alloc v).2 lib = internalPrefixes h lib := by
  unfold internalPrefixes Heap.alloc
  cases hr : lib.extraRef with
  | none => rfl
  | some r =>
    dsimp only
    rw [if_neg (Nat.ne_of_lt (validIn_lt h lib r hvalid hr))]

/-- Counterexample to C9 as stated: a library whose extra prefixes
were attached after parsing (internal list object at reference 0
holding the `mylib` prefix).  `copy_library` round-trips through
`serialize`, which only carries the schema-backed fields, so the copy
holds no extra prefixes at all and is not equal to the original. -/
theorem copy_library_counterexample :
    internalPrefixes heap9 libObj9 = [{ pfx := "mylib", path := "/usr/share/mylib" }]
    ∧ internalPrefixes heap9 (copy_library libObj9) = []
    ∧ internalPrefixes heap9 (copy_library libObj9) ≠ internalPrefixes heap9 libObj9 := by
  decide

/-- C9 (amended): `copy_library` preserves every schema-backed field
of the library and yields an independent value, but it does not
preserve extra prefixes attached after parsing: the copy's internal
extra-prefix attribute is absent, so it holds no extra prefixes; and
the copy shares no list object with the original — attaching extras
to the copy, or mutating the list so attached, never changes the
prefixes the original holds. -/
theorem copy_library_spec (h : Heap) (lib : LibraryObj)
    (hvalid : lib.validIn h = true) :
    (copy_library lib).fields = lib.fields
    ∧ (copy_library lib).extraRef = none
    ∧ internalPrefixes h (copy_library lib) = []
    ∧ ∀ (rin : Nat) (v : List PathPrefix), rin < h.next →
        (set_extra_prefixes h (copy_library lib) rin).1.extraRef = some h.next
        ∧ internalPrefixes (set_extra_prefixes h (copy_library lib) rin).2 lib
            = internalPrefixes h lib
        ∧ internalPrefixes
            ((set_extra_prefixes h (copy_library lib) rin).2.write h.next v) lib
            = internalPrefixes h lib := by
  refine ⟨rfl, rfl, rfl, fun rin v hrin => ⟨rfl, ?_, ?_⟩⟩
  · exact internalPrefixes_alloc h lib (h.store rin) hvalid
  · rw [internalPrefixes_write_ne _ _ _ _
      (fun r hrr => Nat.ne_of_lt (validIn_lt h lib r hvalid hrr))]
    exact internalPrefixes_alloc h lib (h.store rin) hvalid

/-- Closed instance of `copy_library_spec`: at the one-object heap,
the copy keeps the schema fields, and attaching extras to the copy
leaves the original's `mylib` prefix list untouched. -/
theorem copy_library_spec_witness :
    (copy_library libObj9).fields = libObj9.fields
    ∧ internalPrefixes (set_extra_prefixes heap9 (copy_library libObj9) 0).2 libObj9
        = internalPrefixes heap9 libObj9 := by
  have h := copy_library_spec heap9 libObj9 (by decide)
  exact ⟨h.1, (h.2.2.2 0 [] (by decide)).2.1⟩

/-- C10: the `extra_prefixes` accessors copy in both directions.  The
getter returns a fresh list object holding exactly the prefixes the
library holds, and mutating that returned object never changes the
library's own prefixes; the setter stores a copy of the supplied list
object's contents, and mutating the supplied object afterwards never
changes the prefixes the library holds. -/
theorem extra_prefixes_deep_copy (h : Heap) (lib : LibraryObj)
    (hvalid : lib.validIn h = true) :
    ((get_extra_prefixes h lib).2.store (get_extra_prefixes h lib).1
        = internalPrefixes h lib)
    ∧ (∀ v, internalPrefixes
        ((get_extra_prefixes h lib).2.write (get_extra_prefixes h lib).1 v) lib
        = internalPrefixes h lib)
    ∧ (∀ rin : Nat, rin < h.next →
        internalPrefixes (set_extra_prefixes h lib rin).2 (set_extra_prefixes h lib rin).1
          = h.store rin
        ∧ ∀ v, internalPrefixes ((set_extra_prefixes h lib rin).2.write rin v)
            (set_extra_prefixes h lib rin).1 = h.store rin) := by
  refine ⟨?_, fun v => ?_, fun rin hrin => ⟨?_, fun v => ?_⟩⟩
  · unfold get_extra_prefixes deeplist Heap.alloc internalPrefixes
    cases hr : lib.extraRef with
    | none => simp
    | some r => simp
  · cases hr : lib.extraRef with
    | none =>
      unfold get_extra_prefixes
      rw [hr]
      dsimp only
      rw [internalPrefixes_write_ne _ _ _ _ (fun r hrr => by rw [hr] at hrr; cases hrr)]
      exact internalPrefixes_alloc h lib [] hvalid
    | some r0 =>
      unfold get_extra_prefixes deeplist
      rw [hr]
      dsimp only
      rw [internalPrefixes_write_ne _ _ _ _
        (fun r hrr => by
          rw [hr] at hrr
          cases hrr
          exact Nat.ne_of_lt (validIn_lt h lib r0 hvalid hr))]
      exact internalPrefixes_alloc h lib (h.store r0) hvalid
  · unfold set_extra_prefixes deeplist Heap.alloc internalPrefixes
    dsimp only
    rw [if_pos rfl]
  · unfold set_extra_prefixes deeplist Heap.alloc Heap.write internalPrefixes
    dsimp only
    rw [if_neg (Ne.symm (Nat.ne_of_lt hrin)), if_pos rfl]

/-- Closed instance of `extra_prefixes_deep_copy`: at the one-object
heap, the getter's returned list holds the `mylib` prefix, clearing
the returned list object leaves the library's prefixes unchanged, and
the setter stores the supplied contents while later mutation of the
supplied object does not leak in. -/
theorem extra_prefixes_deep_copy_witness :
    (get_extra_prefixes heap9 libObj9).2.store (get_extra_prefixes heap9 libObj9).1
      = internalPrefixes heap9 libObj9
    ∧ internalPrefixes ((get_extra_prefixes heap9 libObj9).2.write
        (get_extra_prefixes heap9 libObj9).1 []) libObj9
      = internalPrefixes heap9 libObj9
    ∧ internalPrefixes (set_extra_prefixes heap9 libObj9 0).2
        (set_extra_prefixes heap9 libObj9 0).1 = heap9.store 0 := by
  have h := extra_prefixes_deep_copy heap9 libObj9 (by decide)
  exact ⟨h.1, h.2.1 [], (h.2.2 0 (by decide)).1⟩

end HammerTech
